import Mathlib

/-!
Verification of the BibleAI retrieval core (`src/EmbeddingsManager.py`,
`src/RetrievalEngine.py`, `src/BibleVerse.py`, `src/BibleParser.py`,
`src/StudyNotesParser.py`) against its natural-language specification.

The Python code is shallowly embedded: classes become structures, Python dicts
become insertion-ordered association lists (`List (String × _)`), floats become
real numbers, fallible operations return `Except`, and the file system behind
the embedding cache is modelled as an explicit `CacheFile` value.
-/

/-! ## Python string primitives -/

/-- Characters matched by Python's `\s` / `str.strip()` on ASCII text:
space, tab, newline, carriage return, vertical tab, form feed. -/
def isPySpace (c : Char) : Bool :=
  c == ' ' || c == '\t' || c == '\n' || c == '\r' || c == '\x0b' || c == '\x0c'

/-- Remove leading whitespace (the leading half of Python `str.strip()`). -/
def lstripChars (l : List Char) : List Char := l.dropWhile isPySpace

/-- Remove trailing whitespace (the trailing half of Python `str.strip()`). -/
def rstripChars : List Char → List Char
  | [] => []
  | c :: rest =>
    let r := rstripChars rest
    if r.isEmpty && isPySpace c then [] else c :: r

/-- Python `str.strip()`: remove leading and trailing whitespace. -/
def stripChars (l : List Char) : List Char := rstripChars (lstripChars l)

/-- Python `re.sub(r'\s+', ' ', text)`: each maximal run of whitespace
characters is replaced by a single space. -/
def collapseWS : List Char → List Char
  | [] => []
  | [c] => if isPySpace c then [' '] else [c]
  | c :: d :: rest =>
    if isPySpace c then
      if isPySpace d then collapseWS (d :: rest) else ' ' :: collapseWS (d :: rest)
    else c :: collapseWS (d :: rest)

/-- `BibleVerse.__post_init__` (src/BibleVerse.py lines 18-21):
`text.strip()` followed by `re.sub(r'\s+', ' ', text)`. -/
def normalizeText (s : String) : String := String.mk (collapseWS (stripChars s.toList))

/-- Python `str.lower()` (ASCII behaviour). -/
def pyLower (s : String) : String := String.mk (s.toList.map Char.toLower)

/-- Python regex `\w` word character (ASCII): alphanumeric or underscore. -/
def isWordChar (c : Char) : Bool := c.isAlphanum || c == '_'

/-- Accumulator pass extracting the maximal word-character runs of a string,
in order: the semantics of `re.findall(r'\b\w+\b', s)`. `cur` holds the
current partial token reversed. -/
def tokenizeAux : List Char → List Char → List String
  | [], cur => if cur.isEmpty then [] else [String.mk cur.reverse]
  | c :: rest, cur =>
    if isWordChar c then tokenizeAux rest (c :: cur)
    else if cur.isEmpty then tokenizeAux rest []
    else String.mk cur.reverse :: tokenizeAux rest []

/-- `re.findall(r'\b\w+\b', s)`: the list of maximal word-character runs. -/
def wordTokens (s : String) : List String := tokenizeAux s.toList []

/-- Python substring containment (`needle in haystack`) on character lists. -/
def containsSub (needle : List Char) : List Char → Bool
  | [] => needle.isEmpty
  | c :: rest => needle.isPrefixOf (c :: rest) || containsSub needle rest

/-- Python `needle in haystack` for strings. -/
def pyContains (needle haystack : String) : Bool :=
  containsSub needle.toList haystack.toList

/-! ## Keyword extraction (`RetrievalEngine._ExtractKeywords`, lines 201-211) -/

/-- The fixed stop-word set `common_words` of `_ExtractKeywords`. -/
def COMMON_WORDS : List String :=
  ["the", "a", "an", "and", "or", "but", "in", "on", "at", "to", "for", "of",
   "with", "by", "is", "are", "was", "were", "be", "been", "being", "have",
   "has", "had", "do", "does", "did", "will", "would", "could", "should",
   "may", "might", "can", "what", "when", "where", "why", "how", "who",
   "which", "that", "this", "these", "those"]

/-- `RetrievalEngine._ExtractKeywords`: tokenize the lowercased query on word
boundaries, drop stop words and tokens of length ≤ 2, keep the first 10. -/
def ExtractKeywords (query : String) : List String :=
  let words := wordTokens (pyLower query)
  let keywords := words.filter (fun w => !(COMMON_WORDS.contains w) && decide (2 < w.length))
  keywords.take 10

/-! ## Data model -/

/-- A value stored in a Python `Dict[str, Any]` metadata map: the code only
ever stores strings and ints there. -/
inductive MetaValue where
  | s (v : String)
  | i (v : Int)
deriving DecidableEq

/-- `BibleVerse` dataclass fields (src/BibleVerse.py). -/
structure BibleVerse where
  translation : String
  book : String
  chapter : Int
  verse : Int
  text : String
  osis_id : String
deriving DecidableEq

/-- The `BibleVerse` constructor including `__post_init__`, which strips and
whitespace-collapses `text`. Every verse object the Python program builds
goes through this. -/
def mkBibleVerse (translation book : String) (chapter verse : Int)
    (text osis_id : String) : BibleVerse :=
  { translation := translation, book := book, chapter := chapter,
    verse := verse, text := normalizeText text, osis_id := osis_id }

/-- `StudyNote` dataclass fields (src/StudyNotesParser.py, no post-init). -/
structure StudyNote where
  file_path : String
  content : String
  book : String
  testament : String
  chapter_topic : String
  filename : String
  line_count : Int
deriving DecidableEq

/-- `EmbeddingItem` dataclass (src/EmbeddingsManager.py lines 20-31).
Vectors are lists of reals; metadata is an insertion-ordered map. -/
structure EmbeddingItem where
  id : String
  embedding : List ℝ
  content : String
  content_type : String
  metadata : List (String × MetaValue)

/-- In-memory state of an `EmbeddingsManager`: the `Embeddings` dict
(modelled as an insertion-ordered association list, like a Python dict) and
the `EmbeddingsLoaded` flag. File-path fields are external to the model. -/
structure EmbeddingsStore where
  Embeddings : List (String × EmbeddingItem)
  EmbeddingsLoaded : Bool

/-- `EmbeddingsManager.__init__`: empty dict, loaded flag false. -/
def freshStore : EmbeddingsStore := { Embeddings := [], EmbeddingsLoaded := false }

/-- Python `dict` lookup `m.get(k)`. -/
def dictGet {β : Type} (m : List (String × β)) (k : String) : Option β :=
  (m.find? (fun p => p.1 == k)).map Prod.snd

/-- Python `dict` assignment `m[k] = v`: overwrite in place if the key
exists (keeping its position), else append (insertion order). -/
def dictInsert {β : Type} : List (String × β) → String → β → List (String × β)
  | [], k, v => [(k, v)]
  | p :: ps, k, v => if p.1 == k then (k, v) :: ps else p :: dictInsert ps k v

/-! ## Embedding store operations (src/EmbeddingsManager.py) -/

/-- `np.dot` of two vectors. -/
noncomputable def dotProduct (a b : List ℝ) : ℝ := (List.zipWith (· * ·) a b).sum

/-- `np.linalg.norm`: Euclidean magnitude. -/
noncomputable def magnitude (v : List ℝ) : ℝ := Real.sqrt (dotProduct v v)

/-- `EmbeddingsManager._CosineSimilarity` (lines 180-188): dot product over
product of magnitudes, defined as exactly 0 when either magnitude is 0. -/
noncomputable def CosineSimilarity (a b : List ℝ) : ℝ :=
  if magnitude a = 0 ∨ magnitude b = 0 then 0
  else dotProduct a b / (magnitude a * magnitude b)

/-- The filter test of `FindSimilarContent` (line 164): an item is skipped
iff the filter is truthy (present and nonempty) and the content type
differs; so it is kept iff the filter is absent, empty, or matches. -/
def keepItem (content_type_filter : Option String) (item : EmbeddingItem) : Bool :=
  match content_type_filter with
  | none => true
  | some t => (t == "") || (item.content_type == t)

/-- `EmbeddingsManager.FindSimilarContent` (lines 153-174): empty store
yields []; otherwise score every type-matching item with cosine similarity
against the query, sort by descending similarity (stable sort, as Python's
`list.sort(key=..., reverse=True)`), and truncate to `max_results`. -/
noncomputable def FindSimilarContent (s : EmbeddingsStore) (query_embedding : List ℝ)
    (content_type_filter : Option String) (max_results : ℕ) :
    List (EmbeddingItem × ℝ) :=
  match s.Embeddings with
  | [] => []
  | _ :: _ =>
    let similarities :=
      ((s.Embeddings.map Prod.snd).filter (keepItem content_type_filter)).map
        (fun item => (item, CosineSimilarity query_embedding item.embedding))
    (similarities.mergeSort (fun x y => decide (y.2 ≤ x.2))).take max_results

/-- The item id `f"bible_{verse.translation}_{verse.osis_id}"`. -/
def verseItemId (v : BibleVerse) : String :=
  "bible_" ++ v.translation ++ "_" ++ v.osis_id

/-- The `EmbeddingItem` built for a verse by `AddBibleVerseEmbeddings`
(lines 109-121). -/
def mkVerseItem (v : BibleVerse) (e : List ℝ) : EmbeddingItem :=
  { id := verseItemId v, embedding := e, content := v.text,
    content_type := "bible_verse",
    metadata := [("translation", .s v.translation), ("book", .s v.book),
                 ("chapter", .i v.chapter), ("verse", .i v.verse),
                 ("osis_id", .s v.osis_id)] }

/-- The item id `f"study_{note.book}_{note.filename}"`. -/
def noteItemId (n : StudyNote) : String := "study_" ++ n.book ++ "_" ++ n.filename

/-- The `EmbeddingItem` built for a study note by `AddStudyNoteEmbeddings`
(lines 133-146). -/
def mkNoteItem (n : StudyNote) (e : List ℝ) : EmbeddingItem :=
  { id := noteItemId n, embedding := e, content := n.content,
    content_type := "study_note",
    metadata := [("book", .s n.book), ("testament", .s n.testament),
                 ("chapter_topic", .s n.chapter_topic), ("filename", .s n.filename),
                 ("file_path", .s n.file_path), ("line_count", .i n.line_count)] }

/-- `EmbeddingsManager.AddBibleVerseEmbeddings` (lines 102-121): raises
`ValueError` when the list lengths differ (before touching the store), else
inserts one entry per (verse, embedding) pair. -/
def AddBibleVerseEmbeddings (s : EmbeddingsStore) (verses : List BibleVerse)
    (embeddings : List (List ℝ)) : Except String EmbeddingsStore :=
  if verses.length ≠ embeddings.length then
    .error "Number of verses must match number of embeddings"
  else
    let m := (verses.zip embeddings).foldl
      (fun m ve => dictInsert m (verseItemId ve.1) (mkVerseItem ve.1 ve.2))
      s.Embeddings
    .ok { s with Embeddings := m }

/-- `EmbeddingsManager.AddStudyNoteEmbeddings` (lines 126-146). -/
def AddStudyNoteEmbeddings (s : EmbeddingsStore) (study_notes : List StudyNote)
    (embeddings : List (List ℝ)) : Except String EmbeddingsStore :=
  if study_notes.length ≠ embeddings.length then
    .error "Number of study notes must match number of embeddings"
  else
    let m := (study_notes.zip embeddings).foldl
      (fun m ne => dictInsert m (noteItemId ne.1) (mkNoteItem ne.1 ne.2))
      s.Embeddings
    .ok { s with Embeddings := m }

/-- One serialized entry of the pickle cache file: the five-field dict
written by `SaveEmbeddings` (lines 83-89). -/
structure SerializedItem where
  id : String
  embedding : List ℝ
  content : String
  content_type : String
  metadata : List (String × MetaValue)

/-- Reverse of serialization: the `EmbeddingItem(...)` construction inside
`LoadEmbeddings` (lines 62-68). -/
def deserializeItem (d : SerializedItem) : EmbeddingItem :=
  { id := d.id, embedding := d.embedding, content := d.content,
    content_type := d.content_type, metadata := d.metadata }

/-- The serializable dict built per item by `SaveEmbeddings`. -/
def serializeItem (it : EmbeddingItem) : SerializedItem :=
  { id := it.id, embedding := it.embedding, content := it.content,
    content_type := it.content_type, metadata := it.metadata }

/-- The embeddings cache file as the store observes it: absent, failing to
deserialize (any exception from `pickle.load` or the conversion loop), or a
well-formed pickled dict. -/
inductive CacheFile where
  | missing
  | corrupt
  | good (entries : List (String × SerializedItem))

/-- `EmbeddingsManager.LoadEmbeddings` (lines 50-75): a missing file is an
early return (state untouched); any deserialization failure is caught, the
dict is reset to `{}`, and the exception does not escape (the loaded flag is
not reset); a well-formed file has its entries inserted into the existing
dict and the loaded flag set. -/
def LoadEmbeddings (s : EmbeddingsStore) (file : CacheFile) : EmbeddingsStore :=
  match file with
  | .missing => s
  | .corrupt => { s with Embeddings := [] }
  | .good entries =>
    { s with
      Embeddings := entries.foldl
        (fun m p => dictInsert m p.1 (deserializeItem p.2)) s.Embeddings,
      EmbeddingsLoaded := true }

/-- `EmbeddingsManager.SaveEmbeddings` (lines 78-97), success path: writes
the full entry collection as a pickled dict of five-field dicts. -/
def SaveEmbeddings (s : EmbeddingsStore) : CacheFile :=
  .good (s.Embeddings.map (fun p => (p.1, serializeItem p.2)))

/-! ## Record Store search (src/BibleParser.py, src/StudyNotesParser.py) -/

/-- The `BibleParser` search state: the `Translations` dict mapping a
translation filename to a dict of book name to verse list. (The `VerseIndex`
is not used by the retrieval engine paths under verification.) -/
structure BibleParserState where
  Translations : List (String × List (String × List BibleVerse))

/-- Innermost loop of `GetVersesByTopicKeywords` (lines 199-204): scan one
book's verses, appending any verse whose lowered text contains some lowered
keyword; the Bool is true when `len(results) >= max_results` triggered the
early `return`. -/
def versesMatchLoop (keywords_lower : List String) (max_results : ℕ)
    (acc : List BibleVerse) : List BibleVerse → List BibleVerse × Bool
  | [] => (acc, false)
  | v :: rest =>
    if keywords_lower.any (fun kw => pyContains kw (pyLower v.text)) then
      let acc2 := acc ++ [v]
      if max_results ≤ acc2.length then (acc2, true)
      else versesMatchLoop keywords_lower max_results acc2 rest
    else versesMatchLoop keywords_lower max_results acc rest

/-- Middle loop of `GetVersesByTopicKeywords` (line 198): over the books of
one translation, in dict order. -/
def versesBooksLoop (keywords_lower : List String) (max_results : ℕ)
    (acc : List BibleVerse) : List (String × List BibleVerse) → List BibleVerse × Bool
  | [] => (acc, false)
  | b :: rest =>
    let r := versesMatchLoop keywords_lower max_results acc b.2
    if r.2 then (r.1, true) else versesBooksLoop keywords_lower max_results r.1 rest

/-- Outer loop of `GetVersesByTopicKeywords` (lines 194-196): over candidate
translation names, skipping names absent from the `Translations` dict. -/
def versesTransLoop (translations : List (String × List (String × List BibleVerse)))
    (keywords_lower : List String) (max_results : ℕ)
    (acc : List BibleVerse) : List String → List BibleVerse × Bool
  | [] => (acc, false)
  | t :: rest =>
    match dictGet translations t with
    | none => versesTransLoop translations keywords_lower max_results acc rest
    | some books =>
      let r := versesBooksLoop keywords_lower max_results acc books
      if r.2 then (r.1, true)
      else versesTransLoop translations keywords_lower max_results r.1 rest

/-- `BibleParser.GetVersesByTopicKeywords` (lines 176-206): lowercase the
keywords, resolve the translation argument to a filename list (a truthy
translation is normalized to `<lower>.xml` unless already an `.xml` name;
a falsy one means all translations), then scan. -/
def GetVersesByTopicKeywords (p : BibleParserState) (keywords : List String)
    (translation : Option String) (max_results : ℕ) : List BibleVerse :=
  let keywords_lower := keywords.map pyLower
  let translations_to_search :=
    match translation with
    | some t =>
      if t == "" then p.Translations.map Prod.fst
      else [if t.endsWith ".xml" then t else pyLower t ++ ".xml"]
    | none => p.Translations.map Prod.fst
  (versesTransLoop p.Translations keywords_lower max_results [] translations_to_search).1

/-- The `StudyNotesParser` search state: the flat `AllStudyNotes` list
(the by-book dict is not used by `SearchStudyNotes`). -/
structure StudyNotesParserState where
  AllStudyNotes : List StudyNote

/-- Loop of `SearchStudyNotes` (lines 173-184): append a note when the
lowered query occurs in its lowered content, or else in its lowered
chapter topic; break once the bound is reached. -/
def notesSearchLoop (query_lower : String) (max_results : ℕ)
    (acc : List StudyNote) : List StudyNote → List StudyNote
  | [] => acc
  | n :: rest =>
    if pyContains query_lower (pyLower n.content) then
      let acc2 := acc ++ [n]
      if max_results ≤ acc2.length then acc2
      else notesSearchLoop query_lower max_results acc2 rest
    else if pyContains query_lower (pyLower n.chapter_topic) then
      let acc2 := acc ++ [n]
      if max_results ≤ acc2.length then acc2
      else notesSearchLoop query_lower max_results acc2 rest
    else notesSearchLoop query_lower max_results acc rest

/-- `StudyNotesParser.SearchStudyNotes` (lines 162-186): optional truthy
book filter restricts the searched notes, then the containment scan runs. -/
def SearchStudyNotes (p : StudyNotesParserState) (query : String)
    (book_filter : Option String) (max_results : ℕ) : List StudyNote :=
  let query_lower := pyLower query
  let notes_to_search :=
    match book_filter with
    | some b =>
      if b == "" then p.AllStudyNotes
      else p.AllStudyNotes.filter (fun n => pyContains (pyLower b) (pyLower n.book))
    | none => p.AllStudyNotes
  notesSearchLoop query_lower max_results [] notes_to_search

/-! ## Retrieval engine (src/RetrievalEngine.py) -/

/-- `DEFAULT_SIMILARITY_THRESHOLD = 0.3` (line 15). -/
noncomputable def DEFAULT_SIMILARITY_THRESHOLD : ℝ := 3 / 10

/-- `TRANSLATION_PRIORITY = ["YLT", "KJV", "WEB"]` (line 16). -/
def TRANSLATION_PRIORITY : List String := ["YLT", "KJV", "WEB"]

/-- The `BibleVerse(...)` reconstruction from entry metadata inside
`_RetrieveBibleVersesSemantic` (lines 112-120). The Python indexes the
metadata dict directly (raising `KeyError` on a malformed entry); entries
produced by the batch-add always carry all five keys with these types, and
only that well-formed case is exercised by the claims, so a malformed entry
is mapped to `none` here. -/
def reconstructVerse (item : EmbeddingItem) : Option BibleVerse :=
  match dictGet item.metadata "translation", dictGet item.metadata "book",
        dictGet item.metadata "chapter", dictGet item.metadata "verse",
        dictGet item.metadata "osis_id" with
  | some (.s tr), some (.s bk), some (.i ch), some (.i vs), some (.s oid) =>
    some (mkBibleVerse tr bk ch vs item.content oid)
  | _, _, _, _, _ => none

/-- The `StudyNote(...)` reconstruction from entry metadata inside
`_RetrieveStudyNotesSemantic` (lines 144-153); `StudyNote` has no
post-init, so the fields are taken as stored. -/
def reconstructNote (item : EmbeddingItem) : Option StudyNote :=
  match dictGet item.metadata "file_path", dictGet item.metadata "book",
        dictGet item.metadata "testament", dictGet item.metadata "chapter_topic",
        dictGet item.metadata "filename", dictGet item.metadata "line_count" with
  | some (.s fp), some (.s bk), some (.s ts), some (.s ct), some (.s fn), some (.i lc) =>
    some { file_path := fp, content := item.content, book := bk, testament := ts,
           chapter_topic := ct, filename := fn, line_count := lc }
  | _, _, _, _, _, _ => none

/-- `RetrievalEngine._RetrieveBibleVersesSemantic` (lines 97-123): empty
unless `EmbeddingsLoaded`; query the store with the `bible_verse` filter,
keep hits at or above the similarity threshold, reconstruct verses. -/
noncomputable def RetrieveBibleVersesSemantic (es : EmbeddingsStore)
    (query_embedding : List ℝ) (max_results : ℕ) : List (BibleVerse × ℝ) :=
  match es.EmbeddingsLoaded with
  | false => []
  | true =>
    let similar := FindSimilarContent es query_embedding (some "bible_verse") max_results
    similar.filterMap (fun is =>
      if DEFAULT_SIMILARITY_THRESHOLD ≤ is.2 then
        (reconstructVerse is.1).map (fun v => (v, is.2))
      else none)

/-- `RetrievalEngine._RetrieveStudyNotesSemantic` (lines 129-156). -/
noncomputable def RetrieveStudyNotesSemantic (es : EmbeddingsStore)
    (query_embedding : List ℝ) (max_results : ℕ) : List (StudyNote × ℝ) :=
  match es.EmbeddingsLoaded with
  | false => []
  | true =>
    let similar := FindSimilarContent es query_embedding (some "study_note") max_results
    similar.filterMap (fun is =>
      if DEFAULT_SIMILARITY_THRESHOLD ≤ is.2 then
        (reconstructNote is.1).map (fun n => (n, is.2))
      else none)

/-- Loop of `_RetrieveBibleVersesKeyword` (lines 168-175): accumulate
keyword hits across the priority translations, breaking once the bound is
reached. -/
def transPriorityLoop (p : BibleParserState) (keywords : List String)
    (max_results : ℕ) (acc : List BibleVerse) : List String → List BibleVerse
  | [] => acc
  | t :: rest =>
    let verses := GetVersesByTopicKeywords p keywords (some t) max_results
    let acc2 := acc ++ verses
    if max_results ≤ acc2.length then acc2
    else transPriorityLoop p keywords max_results acc2 rest

/-- `RetrievalEngine._RetrieveBibleVersesKeyword` (lines 162-177). -/
def RetrieveBibleVersesKeyword (p : BibleParserState) (query : String)
    (max_results : ℕ) : List BibleVerse :=
  let keywords := ExtractKeywords query
  (transPriorityLoop p keywords max_results [] TRANSLATION_PRIORITY).take max_results

/-- Loop of `_RetrieveStudyNotesKeyword` (lines 189-194): one
`SearchStudyNotes` call per keyword, breaking once the bound is reached. -/
def notesKeywordLoop (sp : StudyNotesParserState) (max_results : ℕ)
    (acc : List StudyNote) : List String → List StudyNote
  | [] => acc
  | kw :: rest =>
    let notes := SearchStudyNotes sp kw none max_results
    let acc2 := acc ++ notes
    if max_results ≤ acc2.length then acc2
    else notesKeywordLoop sp max_results acc2 rest

/-- `RetrievalEngine._RetrieveStudyNotesKeyword` (lines 183-196). -/
def RetrieveStudyNotesKeyword (sp : StudyNotesParserState) (query : String)
    (max_results : ℕ) : List StudyNote :=
  (notesKeywordLoop sp max_results [] (ExtractKeywords query)).take max_results

/-- Shared shape of both fusion loops of `_CombineAndDeduplicateVerses` and
`_CombineAndDeduplicateStudyNotes`: walk the list, skip elements whose key
is in `seen`, otherwise record the key and append the element; the Bool is
true when the bound was reached (the loop's early `return`/`break`). -/
def combineLoop {α : Type} (key : α → String) (max_results : ℕ) :
    List α → List String → List α → List α × List String × Bool
  | [], seen, acc => (acc, seen, false)
  | x :: rest, seen, acc =>
    if key x ∈ seen then combineLoop key max_results rest seen acc
    else
      let acc2 := acc ++ [x]
      if max_results ≤ acc2.length then (acc2, key x :: seen, true)
      else combineLoop key max_results rest (key x :: seen) acc2

/-- The verse uniqueness key `f"{verse.translation}:{verse.osis_id}"`
(lines 227, 237). -/
def verseKey (v : BibleVerse) : String := v.translation ++ ":" ++ v.osis_id

/-- The note uniqueness key `note.file_path` (lines 261, 270). -/
def noteKey (n : StudyNote) : String := n.file_path

/-- `RetrievalEngine._CombineAndDeduplicateVerses` (lines 218-245):
semantic results first (scores dropped), then keyword results, dedupe by
key, stop at the bound. -/
def CombineAndDeduplicateVerses (semantic_results : List (BibleVerse × ℝ))
    (keyword_results : List BibleVerse) (max_results : ℕ) : List BibleVerse :=
  let r1 := combineLoop verseKey max_results (semantic_results.map Prod.fst) [] []
  if r1.2.2 then r1.1
  else (combineLoop verseKey max_results keyword_results r1.2.1 r1.1).1

/-- `RetrievalEngine._CombineAndDeduplicateStudyNotes` (lines 252-277). -/
def CombineAndDeduplicateStudyNotes (semantic_results : List (StudyNote × ℝ))
    (keyword_results : List StudyNote) (max_results : ℕ) : List StudyNote :=
  let r1 := combineLoop noteKey max_results (semantic_results.map Prod.fst) [] []
  if r1.2.2 then r1.1
  else (combineLoop noteKey max_results keyword_results r1.2.1 r1.1).1

/-- The dictionary returned by `RetrieveContent` (lines 62-68). -/
structure RetrievalResult where
  bible_verses : List BibleVerse
  study_notes : List StudyNote
  query : String
  total_bible_results : ℕ
  total_study_results : ℕ
deriving DecidableEq

/-- `RetrievalEngine.RetrieveContent` (lines 41-68). The engine's embedding
generator `_GenerateEmbedding` (an md5-hash placeholder the spec treats as
an opaque external collaborator) is passed in as the function `embed`. -/
noncomputable def RetrieveContent (bp : BibleParserState) (sp : StudyNotesParserState)
    (es : EmbeddingsStore) (embed : String → List ℝ) (query : String)
    (max_bible_results max_study_results : ℕ) : RetrievalResult :=
  let query_embedding := embed query
  let semantic_bible_verses := RetrieveBibleVersesSemantic es query_embedding max_bible_results
  let semantic_study_notes := RetrieveStudyNotesSemantic es query_embedding max_study_results
  let keyword_bible_verses := RetrieveBibleVersesKeyword bp query max_bible_results
  let keyword_study_notes := RetrieveStudyNotesKeyword sp query max_study_results
  let combined_bible_verses :=
    CombineAndDeduplicateVerses semantic_bible_verses keyword_bible_verses max_bible_results
  let combined_study_notes :=
    CombineAndDeduplicateStudyNotes semantic_study_notes keyword_study_notes max_study_results
  { bible_verses := combined_bible_verses, study_notes := combined_study_notes,
    query := query, total_bible_results := combined_bible_verses.length,
    total_study_results := combined_study_notes.length }

/-! ## Specification-side definitions

These follow the spec's wording (spec §4.2 step 4 and §9: an order-preserving
deduplicating accumulator over semantic results then keyword results,
truncated to the class bound) and are compared with the loop implementation
above. -/

/-- First-occurrence deduplication by uniqueness key, relative to a set of
already-seen keys. -/
def dedupByKey {α : Type} (key : α → String) (seen : List String) : List α → List α
  | [] => []
  | x :: rest =>
    if key x ∈ seen then dedupByKey key seen rest
    else x :: dedupByKey key (key x :: seen) rest

/-- The seen-key set after running the deduplicating accumulator. -/
def seenAfter {α : Type} (key : α → String) (seen : List String) : List α → List String
  | [] => seen
  | x :: rest =>
    if key x ∈ seen then seenAfter key seen rest
    else seenAfter key (key x :: seen) rest

/-! ## Batch-add sequences (for the add-never-sets-loaded invariant) -/

/-- One batch-add call on the embedding store. -/
inductive AddOp where
  | verses (vs : List BibleVerse) (es : List (List ℝ))
  | notes (ns : List StudyNote) (es : List (List ℝ))

/-- Run one batch-add: on success the new state, on a validation error the
state is untouched (the Python raise happens before any insertion). -/
def applyAddOp (s : EmbeddingsStore) : AddOp → EmbeddingsStore
  | .verses vs es =>
    match AddBibleVerseEmbeddings s vs es with
    | .ok s2 => s2
    | .error _ => s
  | .notes ns es =>
    match AddStudyNoteEmbeddings s ns es with
    | .ok s2 => s2
    | .error _ => s

/-- Run a sequence of batch-add calls. -/
def applyAddOps (s : EmbeddingsStore) (ops : List AddOp) : EmbeddingsStore :=
  ops.foldl applyAddOp s

/-! ## Sample data for concrete evaluations -/

/-- A concrete verse as the parser would build it. -/
def sampleVerse : BibleVerse :=
  mkBibleVerse "KJV" "John" 3 16 "For God so loved the world" "John.3.16"

/-- A concrete embedding entry. -/
def sampleItem : EmbeddingItem := mkVerseItem sampleVerse []

/-- A store that already holds an entry and reports data loaded. -/
def loadedStore : EmbeddingsStore :=
  { Embeddings := [(verseItemId sampleVerse, sampleItem)], EmbeddingsLoaded := true }

/-! ## Canonical-whitespace predicates

Used to state that `normalizeText` is idempotent, which is what lets the
semantic pass rebuild a `BibleVerse` (whose constructor re-normalizes the
text) bit-for-bit from a stored entry. -/

/-- The list does not start with a whitespace character. -/
def noLeadSpace : List Char → Bool
  | [] => true
  | c :: _ => !isPySpace c

/-- Every whitespace character in the list is a single `' '` not followed
by further whitespace. -/
def allSpacesSingle : List Char → Bool
  | [] => true
  | c :: rest =>
    (if isPySpace c then c == ' ' && noLeadSpace rest else true) && allSpacesSingle rest

/-! # Theorems -/

/-! ## C4: keyword extraction on the example query -/

/-- C4 counterexample: the claim as stated is false on the code. The
stop-word set `common_words` of `_ExtractKeywords` does not contain
"about", so the keyword list for "What does the Bible say about love?" is
["bible", "say", "about", "love"], which retains "about". -/
theorem extractKeywords_example_fails :
    ¬ ("bible" ∈ ExtractKeywords "What does the Bible say about love?"
       ∧ "love" ∈ ExtractKeywords "What does the Bible say about love?"
       ∧ "what" ∉ ExtractKeywords "What does the Bible say about love?"
       ∧ "does" ∉ ExtractKeywords "What does the Bible say about love?"
       ∧ "the" ∉ ExtractKeywords "What does the Bible say about love?"
       ∧ "about" ∉ ExtractKeywords "What does the Bible say about love?") := by
  decide

/-- C4 (amended): for the input query "What does the Bible say about love?",
the keyword-extraction step produces exactly ["bible", "say", "about",
"love"]; in particular it contains "bible" and "love" and contains none of
the stop words "what", "does", "the" ("about" is not in the code's stop-word
set and is retained). -/
theorem extractKeywords_example :
    ExtractKeywords "What does the Bible say about love?"
      = ["bible", "say", "about", "love"]
    ∧ "bible" ∈ ExtractKeywords "What does the Bible say about love?"
    ∧ "love" ∈ ExtractKeywords "What does the Bible say about love?"
    ∧ "what" ∉ ExtractKeywords "What does the Bible say about love?"
    ∧ "does" ∉ ExtractKeywords "What does the Bible say about love?"
    ∧ "the" ∉ ExtractKeywords "What does the Bible say about love?" := by
  decide

/-! ## C5: batch-add length validation -/

/-- C5: a batch-add whose record and vector lists have differing lengths
fails immediately with the validation error (the raise precedes any
insertion, so in this functional model the erroring call yields no new
state and the caller's store is untouched); equal-length inputs never
produce that error. -/
theorem addEmbeddings_length_validation :
    ∀ (s : EmbeddingsStore) (verses : List BibleVerse) (notes : List StudyNote)
      (ve ne : List (List ℝ)),
      (verses.length ≠ ve.length →
        AddBibleVerseEmbeddings s verses ve
          = .error "Number of verses must match number of embeddings"
        ∧ applyAddOp s (.verses verses ve) = s)
      ∧ (verses.length = ve.length →
        ∃ s2, AddBibleVerseEmbeddings s verses ve = .ok s2)
      ∧ (notes.length ≠ ne.length →
        AddStudyNoteEmbeddings s notes ne
          = .error "Number of study notes must match number of embeddings"
        ∧ applyAddOp s (.notes notes ne) = s)
      ∧ (notes.length = ne.length →
        ∃ s2, AddStudyNoteEmbeddings s notes ne = .ok s2) := by
  intro s verses notes ve ne
  refine ⟨fun h => ⟨?_, ?_⟩, fun h => ?_, fun h => ⟨?_, ?_⟩, fun h => ?_⟩ <;>
    simp [AddBibleVerseEmbeddings, AddStudyNoteEmbeddings, applyAddOp, h]

/-- Witness for C5 at concrete inputs: one verse with zero vectors errors
and changes nothing; empty equal-length lists succeed. -/
theorem addEmbeddings_length_validation_witness :
    (AddBibleVerseEmbeddings freshStore [sampleVerse] []
       = .error "Number of verses must match number of embeddings"
     ∧ applyAddOp freshStore (.verses [sampleVerse] []) = freshStore)
    ∧ (∃ s2, AddStudyNoteEmbeddings freshStore [] [] = .ok s2) :=
  ⟨(addEmbeddings_length_validation freshStore [sampleVerse] [] [] []).1 (by decide),
   (addEmbeddings_length_validation freshStore [sampleVerse] [] [] []).2.2.2 rfl⟩

/-! ## C6: reload on a missing or corrupt cache file -/

/-- C6 counterexample: the claim quantifies over every starting state, but
`LoadEmbeddings` on a missing file is an early return that leaves existing
entries and a true `EmbeddingsLoaded` flag in place, so a store that
already holds data does not end empty with a false flag. -/
theorem loadEmbeddings_empty_fails :
    ¬ ((LoadEmbeddings loadedStore .missing).Embeddings = []
       ∧ (LoadEmbeddings loadedStore .missing).EmbeddingsLoaded = false) := by
  simp [LoadEmbeddings, loadedStore]

/-- C6 (amended): starting from a fresh store (empty map, flag false) —
the state in which the program calls `LoadEmbeddings` — a missing or
corrupt cache file leaves the embeddings map empty and `EmbeddingsLoaded`
false; `LoadEmbeddings` is total on these inputs (the Python catches the
deserialization exception), so no error reaches the caller. -/
theorem loadEmbeddings_missing_or_corrupt :
    ∀ file : CacheFile, file = .missing ∨ file = .corrupt →
      (LoadEmbeddings freshStore file).Embeddings = []
      ∧ (LoadEmbeddings freshStore file).EmbeddingsLoaded = false := by
  intro file h
  rcases h with h | h <;> subst h <;> simp [LoadEmbeddings, freshStore]

/-- Witness for C6 at the missing-file case. -/
theorem loadEmbeddings_missing_or_corrupt_witness :
    (LoadEmbeddings freshStore .missing).Embeddings = []
    ∧ (LoadEmbeddings freshStore .missing).EmbeddingsLoaded = false :=
  loadEmbeddings_missing_or_corrupt .missing (Or.inl rfl)

/-! ## C7: persist-then-reload round trip -/

/-- Inserting a key absent from the dict appends it. -/
theorem dictInsert_not_mem {β : Type} (m : List (String × β)) (k : String) (v : β)
    (h : k ∉ m.map Prod.fst) : dictInsert m k v = m ++ [(k, v)] := by
  induction m with
  | nil => rfl
  | cons p ps ih =>
    simp only [List.map_cons, List.mem_cons, not_or] at h
    rw [dictInsert, if_neg (by simp [beq_iff_eq]; exact fun hh => h.1 hh.symm),
      ih h.2]
    rfl

/-- Folding key-distinct entries into a dict with disjoint keys appends
them in order, transforming each value by `f`. -/
theorem foldl_dictInsert_append {γ β : Type} (f : γ → β) :
    ∀ (l : List (String × γ)) (acc : List (String × β)),
      (acc.map Prod.fst ++ l.map Prod.fst).Nodup →
      l.foldl (fun m p => dictInsert m p.1 (f p.2)) acc
        = acc ++ l.map (fun p => (p.1, f p.2)) := by
  intro l
  induction l with
  | nil => intro acc _; simp
  | cons p ps ih =>
    intro acc h
    have hk : p.1 ∉ acc.map Prod.fst := by
      rcases List.nodup_append.mp h with ⟨-, -, hdisj⟩
      exact fun hmem => hdisj hmem (by simp)
    rw [List.foldl_cons, dictInsert_not_mem _ _ _ hk, ih]
    · simp
    · simpa [List.append_assoc] using h

/-- C7: saving a store and loading the result into a fresh store restores
every entry exactly — same ids, in the same order, and per entry the same
id, vector values, source text, content-type tag and metadata map (the
serialized dict carries precisely those five fields) — and marks the store
loaded. The hypothesis that the stored ids are distinct is the defining
invariant of the Python dict being serialized. -/
theorem saveLoad_roundtrip :
    ∀ s : EmbeddingsStore, (s.Embeddings.map Prod.fst).Nodup →
      LoadEmbeddings freshStore (SaveEmbeddings s)
        = { Embeddings := s.Embeddings, EmbeddingsLoaded := true } := by
  intro s h
  show EmbeddingsStore.mk _ _ = _
  rw [EmbeddingsStore.mk.injEq]
  refine ⟨?_, rfl⟩
  show (s.Embeddings.map (fun p => (p.1, serializeItem p.2))).foldl
      (fun m p => dictInsert m p.1 (deserializeItem p.2)) [] = s.Embeddings
  rw [foldl_dictInsert_append deserializeItem]
  · simp only [List.nil_append, List.map_map]
    exact List.map_id _
  · simpa [List.map_map] using h

/-- Witness for C7 at a concrete one-entry store. -/
theorem saveLoad_roundtrip_witness :
    LoadEmbeddings freshStore (SaveEmbeddings loadedStore)
      = { Embeddings := loadedStore.Embeddings, EmbeddingsLoaded := true } :=
  saveLoad_roundtrip loadedStore (by decide)

/-! ## C3: cosine similarity properties -/

/-- A vector's dot product with itself (a sum of squares) is nonnegative. -/
theorem dotProduct_self_nonneg (v : List ℝ) : 0 ≤ dotProduct v v := by
  unfold dotProduct
  induction v with
  | nil => simp
  | cons c rest ih =>
    simp only [List.zipWith_cons_cons, List.sum_cons]
    exact add_nonneg (mul_self_nonneg c) ih

/-- C3: `_CosineSimilarity` returns exactly 0 whenever either input has
zero magnitude (the guard branch); a vector of nonzero magnitude has
similarity exactly 1 with itself; vectors with zero dot product
(orthogonal) have similarity 0. -/
theorem cosineSimilarity_spec :
    (∀ a b : List ℝ, magnitude a = 0 ∨ magnitude b = 0 → CosineSimilarity a b = 0)
    ∧ (∀ a : List ℝ, magnitude a ≠ 0 → CosineSimilarity a a = 1)
    ∧ (∀ a b : List ℝ, dotProduct a b = 0 → CosineSimilarity a b = 0) := by
  refine ⟨fun a b h => ?_, fun a h => ?_, fun a b h => ?_⟩
  · rw [CosineSimilarity, if_pos h]
  · rw [CosineSimilarity, if_neg (by tauto)]
    have hd : 0 < dotProduct a a := by
      rcases lt_or_eq_of_le (dotProduct_self_nonneg a) with h1 | h1
      · exact h1
      · exact absurd (by rw [magnitude, ← h1, Real.sqrt_zero]) h
    rw [magnitude, Real.mul_self_sqrt (dotProduct_self_nonneg a),
      div_self (ne_of_gt hd)]
  · by_cases hm : magnitude a = 0 ∨ magnitude b = 0
    · rw [CosineSimilarity, if_pos hm]
    · rw [CosineSimilarity, if_neg hm, h, zero_div]

/-- Witness for C3: a zero vector against a unit vector, a vector with
itself, and an orthogonal pair. -/
theorem cosineSimilarity_spec_witness :
    CosineSimilarity [(0:ℝ)] [1] = 0
    ∧ CosineSimilarity [(3:ℝ), 4] [3, 4] = 1
    ∧ CosineSimilarity [(1:ℝ), 0] [0, 1] = 0 :=
  ⟨cosineSimilarity_spec.1 [(0:ℝ)] [1] (Or.inl (by simp [magnitude, dotProduct])),
   cosineSimilarity_spec.2.1 [(3:ℝ), 4] (by
      simp only [magnitude, dotProduct, List.zipWith_cons_cons, List.zipWith_nil_right,
        List.sum_cons, List.sum_nil]
      rw [Real.sqrt_ne_zero']
      norm_num),
   cosineSimilarity_spec.2.2 [(1:ℝ), 0] [0, 1] (by
      simp [dotProduct])⟩

/-! ## C2: FindSimilarContent ordering, bound, empty store, no threshold -/

/-- The descending stable sort of `FindSimilarContent` yields a list whose
scores are pairwise non-increasing. -/
theorem mergeSortBySnd_pairwise (l : List (EmbeddingItem × ℝ)) :
    List.Pairwise (fun a b : EmbeddingItem × ℝ => b.2 ≤ a.2)
      (l.mergeSort (fun x y => decide (y.2 ≤ x.2))) := by
  have h := @List.sorted_mergeSort (EmbeddingItem × ℝ)
    (fun x y => decide (y.2 ≤ x.2))
    (fun a b c hab hbc => by
      simp only [decide_eq_true_eq] at *
      exact le_trans hbc hab)
    (fun a b => by simp [le_total]) l
  exact h.imp (fun hab => by simpa using hab)

/-- Core facts about `sort descending, then truncate`. -/
theorem sortTake_spec (L : List (EmbeddingItem × ℝ)) (m : ℕ) :
    (((L.mergeSort (fun x y => decide (y.2 ≤ x.2))).take m).map Prod.snd).Sorted (· ≥ ·)
    ∧ ((L.mergeSort (fun x y => decide (y.2 ≤ x.2))).take m).length ≤ m
    ∧ (L.length ≤ m →
        (((L.mergeSort (fun x y => decide (y.2 ≤ x.2))).take m).map Prod.fst).Perm
          (L.map Prod.fst)) := by
  refine ⟨?_, List.length_take_le _ _, fun hlen => ?_⟩
  · have hp := (mergeSortBySnd_pairwise L).sublist (List.take_sublist m _)
    exact List.pairwise_map.mpr (hp.imp (fun hab => hab))
  · have hperm := List.mergeSort_perm L (fun x y => decide (y.2 ≤ x.2))
    have htake : (L.mergeSort (fun x y => decide (y.2 ≤ x.2))).take m
        = L.mergeSort (fun x y => decide (y.2 ≤ x.2)) :=
      List.take_of_length_le (by rw [hperm.length_eq]; exact hlen)
    rw [htake]
    exact hperm.map Prod.fst

/-- C2: for every store, query vector, optional type filter and bound,
`FindSimilarContent` returns scores that are non-increasing from first to
last; never more than `max_results` items; the empty store yields the empty
list; and no similarity threshold is applied inside the function — whenever
the bound allows, every type-matching item is returned (the result items
are a permutation of all filter-surviving items, whatever their scores). -/
theorem findSimilarContent_spec :
    ∀ (s : EmbeddingsStore) (q : List ℝ) (f : Option String) (m : ℕ),
      ((FindSimilarContent s q f m).map Prod.snd).Sorted (· ≥ ·)
      ∧ (FindSimilarContent s q f m).length ≤ m
      ∧ (s.Embeddings = [] → FindSimilarContent s q f m = [])
      ∧ (((s.Embeddings.map Prod.snd).filter (keepItem f)).length ≤ m →
          ((FindSimilarContent s q f m).map Prod.fst).Perm
            ((s.Embeddings.map Prod.snd).filter (keepItem f))) := by
  intro s q f m
  rcases hE : s.Embeddings with _ | ⟨p, rest⟩
  · simp [FindSimilarContent, hE]
  · have hbody : FindSimilarContent s q f m
        = (((((p :: rest).map Prod.snd).filter (keepItem f)).map
            (fun item => (item, CosineSimilarity q item.embedding))).mergeSort
              (fun x y => decide (y.2 ≤ x.2))).take m := by
      simp only [FindSimilarContent, hE]
    rw [hbody]
    have hcore := sortTake_spec
      ((((p :: rest).map Prod.snd).filter (keepItem f)).map
        (fun item => (item, CosineSimilarity q item.embedding))) m
    refine ⟨hcore.1, hcore.2.1,
      fun hcontra => absurd hcontra (List.cons_ne_nil p rest), fun hlen => ?_⟩
    have h4 := hcore.2.2 (by rw [List.length_map]; exact hlen)
    rw [List.map_map] at h4
    have hid : (((p :: rest).map Prod.snd).filter (keepItem f)).map
        (Prod.fst ∘ fun item => (item, CosineSimilarity q item.embedding))
        = ((p :: rest).map Prod.snd).filter (keepItem f) :=
      List.map_id _
    rw [hid] at h4
    exact h4

/-- Witness for C2: the empty fresh store yields the empty list, and on a
one-entry store with no filter the returned items are a permutation of the
stored items even at similarity scores below any threshold. -/
theorem findSimilarContent_spec_witness :
    FindSimilarContent freshStore [] none 5 = []
    ∧ ((FindSimilarContent loadedStore [] none 1).map Prod.fst).Perm
        ((loadedStore.Embeddings.map Prod.snd).filter (keepItem none)) :=
  ⟨(findSimilarContent_spec freshStore [] none 5).2.2.1 rfl,
   (findSimilarContent_spec loadedStore [] none 1).2.2.2 (by decide)⟩

/-! ## C1: fusion and deduplication -/

/-- Running one fusion loop from a state with room left equals
first-occurrence deduplication followed by truncation; the early-exit flag
is set exactly when the bound was reached, and when it is not set the seen
set is the deduplication's final seen set. -/
theorem combineLoop_run {α : Type} (key : α → String) (max_results : ℕ) :
    ∀ (l : List α) (seen : List String) (acc : List α), acc.length < max_results →
      (combineLoop key max_results l seen acc).1
          = (acc ++ dedupByKey key seen l).take max_results
      ∧ (combineLoop key max_results l seen acc).2.2
          = decide (max_results ≤ acc.length + (dedupByKey key seen l).length)
      ∧ ((combineLoop key max_results l seen acc).2.2 = false →
          (combineLoop key max_results l seen acc).2.1 = seenAfter key seen l) := by
  intro l
  induction l with
  | nil =>
    intro seen acc hacc
    refine ⟨?_, ?_, fun _ => rfl⟩
    · show acc = (acc ++ dedupByKey key seen []).take max_results
      rw [dedupByKey, List.append_nil, List.take_of_length_le (le_of_lt hacc)]
    · show false = decide (max_results ≤ acc.length + (dedupByKey key seen []).length)
      rw [dedupByKey]
      have hn : ¬ (max_results ≤ acc.length + ([] : List α).length) := by
        simpa using Nat.not_le.mpr hacc
      simpa [hn] using hacc
  | cons x rest ih =>
    intro seen acc hacc
    by_cases hmem : key x ∈ seen
    · simp only [combineLoop, dedupByKey, seenAfter, if_pos hmem]
      exact ih seen acc hacc
    · simp only [combineLoop, dedupByKey, seenAfter, if_neg hmem]
      by_cases hfull : max_results ≤ (acc ++ [x]).length
      · have hmax : max_results = acc.length + 1 := by
          simp only [List.length_append, List.length_cons, List.length_nil] at hfull
          omega
        simp only [if_pos hfull]
        refine ⟨?_, ?_, fun hf => by cases hf⟩
        · rw [hmax, List.take_append 1]
          simp
        · simp only [List.length_cons]
          have hle : max_results
              ≤ acc.length + ((dedupByKey key (key x :: seen) rest).length + 1) := by
            omega
          simp [hle]
      · have hlt : (acc ++ [x]).length < max_results := Nat.lt_of_not_le hfull
        simp only [if_neg hfull]
        have ihres := ih (key x :: seen) (acc ++ [x]) hlt
        have hlens : (acc ++ [x]).length + (dedupByKey key (key x :: seen) rest).length
            = acc.length + (x :: dedupByKey key (key x :: seen) rest).length := by
          simp only [List.length_append, List.length_cons, List.length_nil]
          omega
        refine ⟨?_, ?_, ihres.2.2⟩
        · rw [ihres.1, List.append_assoc]
          rfl
        · rw [ihres.2.1, hlens]

/-- Deduplicating a concatenation splits into deduplicating the first part
and then the second part against the accumulated seen keys. -/
theorem dedupByKey_append_eq {α : Type} (key : α → String) :
    ∀ (a b : List α) (seen : List String),
      dedupByKey key seen (a ++ b)
        = dedupByKey key seen a ++ dedupByKey key (seenAfter key seen a) b := by
  intro a
  induction a with
  | nil => intro b seen; simp [dedupByKey, seenAfter]
  | cons x rest ih =>
    intro b seen
    by_cases hmem : key x ∈ seen
    · simp only [List.cons_append, dedupByKey, seenAfter, if_pos hmem]
      exact ih b seen
    · simp only [List.cons_append, dedupByKey, seenAfter, if_neg hmem]
      exact congrArg (fun t => x :: t) (ih b (key x :: seen))

/-- The deduplicating accumulator produces pairwise-distinct keys, none of
them among the already-seen keys. -/
theorem dedupByKey_nodup_keys {α : Type} (key : α → String) :
    ∀ (l : List α) (seen : List String),
      ((dedupByKey key seen l).map key).Nodup
      ∧ ∀ x ∈ dedupByKey key seen l, key x ∉ seen := by
  intro l
  induction l with
  | nil => intro seen; simp [dedupByKey]
  | cons x rest ih =>
    intro seen
    by_cases hmem : key x ∈ seen
    · simp only [dedupByKey, if_pos hmem]
      exact ih seen
    · simp only [dedupByKey, if_neg hmem, List.map_cons]
      have ihr := ih (key x :: seen)
      constructor
      · refine List.nodup_cons.mpr ⟨?_, ihr.1⟩
        intro hmem2
        rcases List.mem_map.mp hmem2 with ⟨y, hy, hky⟩
        exact (ihr.2 y hy) (by rw [hky]; exact List.mem_cons_self _ _)
      · intro y hy
        rcases List.mem_cons.mp hy with h | h
        · rw [h]; exact hmem
        · exact fun hcon => (ihr.2 y h) (List.mem_cons_of_mem _ hcon)

/-- The two-loop fusion (semantic list first with early return, then the
keyword list with the inherited seen set) equals first-occurrence
deduplication of the concatenation, truncated to a positive bound. -/
theorem genericCombine_eq {α : Type} (key : α → String) (max_results : ℕ)
    (hpos : 0 < max_results) (semL kwL : List α) :
    (if (combineLoop key max_results semL [] []).2.2
     then (combineLoop key max_results semL [] []).1
     else (combineLoop key max_results kwL (combineLoop key max_results semL [] []).2.1
            (combineLoop key max_results semL [] []).1).1)
      = (dedupByKey key [] (semL ++ kwL)).take max_results := by
  have h1 := combineLoop_run key max_results semL [] [] (by simpa using hpos)
  rw [List.nil_append] at h1
  by_cases hflag : (combineLoop key max_results semL [] []).2.2
  · rw [if_pos hflag]
    have hle : max_results ≤ (dedupByKey key [] semL).length := by
      have h := h1.2.1
      rw [hflag] at h
      have := of_decide_eq_true h.symm
      simpa using this
    rw [h1.1, dedupByKey_append_eq, List.take_append_of_le_length hle]
  · have hflagf : (combineLoop key max_results semL [] []).2.2 = false :=
      Bool.not_eq_true _ ▸ (by simpa using hflag)
    rw [if_neg hflag]
    have hlen1 : (dedupByKey key [] semL).length < max_results := by
      have h := h1.2.1
      rw [hflagf] at h
      have := of_decide_eq_false h.symm
      simpa using Nat.lt_of_not_le (by simpa using this)
    have hacc : (combineLoop key max_results semL [] []).1 = dedupByKey key [] semL := by
      rw [h1.1]
      exact List.take_of_length_le (le_of_lt hlen1)
    have hseen := h1.2.2 hflagf
    have h2 := combineLoop_run key max_results kwL (seenAfter key [] semL)
      (dedupByKey key [] semL) hlen1
    rw [hacc, hseen, h2.1, dedupByKey_append_eq]

/-- C1: for every pair of semantic and keyword result lists and every
positive bound, each fused list (verses keyed by translation plus composite
id, notes keyed by file path) equals first-occurrence deduplication of the
semantic hits (in order) followed by the unseen keyword hits, truncated at
the bound — hence each uniqueness key occurs at most once, a record
returned by both passes appears exactly once at its semantic-pass position,
and the bound is never exceeded. -/
theorem combineAndDeduplicate_spec :
    ∀ (semV : List (BibleVerse × ℝ)) (kwV : List BibleVerse)
      (semN : List (StudyNote × ℝ)) (kwN : List StudyNote) (max_results : ℕ),
      0 < max_results →
      (CombineAndDeduplicateVerses semV kwV max_results
          = (dedupByKey verseKey [] (semV.map Prod.fst ++ kwV)).take max_results
        ∧ ((CombineAndDeduplicateVerses semV kwV max_results).map verseKey).Nodup
        ∧ (CombineAndDeduplicateVerses semV kwV max_results).length ≤ max_results)
      ∧ (CombineAndDeduplicateStudyNotes semN kwN max_results
          = (dedupByKey noteKey [] (semN.map Prod.fst ++ kwN)).take max_results
        ∧ ((CombineAndDeduplicateStudyNotes semN kwN max_results).map noteKey).Nodup
        ∧ (CombineAndDeduplicateStudyNotes semN kwN max_results).length ≤ max_results) := by
  intro semV kwV semN kwN max_results hpos
  have hv : CombineAndDeduplicateVerses semV kwV max_results
      = (dedupByKey verseKey [] (semV.map Prod.fst ++ kwV)).take max_results :=
    genericCombine_eq verseKey max_results hpos (semV.map Prod.fst) kwV
  have hn : CombineAndDeduplicateStudyNotes semN kwN max_results
      = (dedupByKey noteKey [] (semN.map Prod.fst ++ kwN)).take max_results :=
    genericCombine_eq noteKey max_results hpos (semN.map Prod.fst) kwN
  refine ⟨⟨hv, ?_, ?_⟩, hn, ?_, ?_⟩
  · rw [hv]
    exact ((dedupByKey_nodup_keys verseKey (semV.map Prod.fst ++ kwV) []).1).sublist
      ((List.take_sublist _ _).map verseKey)
  · rw [hv]; exact List.length_take_le _ _
  · rw [hn]
    exact ((dedupByKey_nodup_keys noteKey (semN.map Prod.fst ++ kwN) []).1).sublist
      ((List.take_sublist _ _).map noteKey)
  · rw [hn]; exact List.length_take_le _ _

/-- Witness for C1: a verse returned by both passes is fused into a
single-occurrence list under bound 5, and empty note lists fuse to the
empty list. -/
theorem combineAndDeduplicate_spec_witness :
    (CombineAndDeduplicateVerses [(sampleVerse, (1:ℝ))] [sampleVerse] 5
        = (dedupByKey verseKey []
            (([(sampleVerse, (1:ℝ))].map Prod.fst) ++ [sampleVerse])).take 5
      ∧ ((CombineAndDeduplicateVerses [(sampleVerse, (1:ℝ))] [sampleVerse] 5).map
          verseKey).Nodup
      ∧ (CombineAndDeduplicateVerses [(sampleVerse, (1:ℝ))] [sampleVerse] 5).length ≤ 5)
    ∧ (CombineAndDeduplicateStudyNotes [] [] 5
        = (dedupByKey noteKey []
            ((([] : List (StudyNote × ℝ)).map Prod.fst) ++ ([] : List StudyNote))).take 5
      ∧ ((CombineAndDeduplicateStudyNotes [] [] 5).map noteKey).Nodup
      ∧ (CombineAndDeduplicateStudyNotes [] [] 5).length ≤ 5) :=
  combineAndDeduplicate_spec [(sampleVerse, (1:ℝ))] [sampleVerse] [] [] 5 (by decide)

/-! ## C8: Retrieve on empty stores -/

/-- A record store with no translations yields no keyword verse hits for
any candidate translation list. -/
theorem versesTransLoop_empty (keywords : List String) (max_results : ℕ) :
    ∀ names : List String,
      versesTransLoop [] keywords max_results [] names = ([], false) := by
  intro names
  induction names with
  | nil => rfl
  | cons t rest ih =>
    show versesTransLoop [] keywords max_results [] (t :: rest) = ([], false)
    rw [versesTransLoop]
    have : dictGet ([] : List (String × List (String × List BibleVerse))) t = none := rfl
    rw [this]
    exact ih

/-- `GetVersesByTopicKeywords` on an empty record store returns nothing. -/
theorem getVersesByTopicKeywords_empty (keywords : List String)
    (translation : Option String) (max_results : ℕ) :
    GetVersesByTopicKeywords ⟨[]⟩ keywords translation max_results = [] := by
  rw [GetVersesByTopicKeywords.eq_def]
  rcases translation with _ | t
  · simp [versesTransLoop_empty]
  · by_cases ht : (t == "") = true <;>
      simp [ht, versesTransLoop_empty]

/-- The priority-translation accumulation over an empty record store stays
empty. -/
theorem transPriorityLoop_empty (keywords : List String) (max_results : ℕ) :
    ∀ names : List String,
      transPriorityLoop ⟨[]⟩ keywords max_results [] names = [] := by
  intro names
  induction names with
  | nil => rfl
  | cons t rest ih =>
    show transPriorityLoop ⟨[]⟩ keywords max_results [] (t :: rest) = []
    rw [transPriorityLoop, getVersesByTopicKeywords_empty]
    simp only [List.append_nil, List.length_nil]
    by_cases h : max_results ≤ 0
    · simp [h]
    · simp [h, ih]

/-- The per-keyword note accumulation over an empty note store stays
empty. -/
theorem notesKeywordLoop_empty (max_results : ℕ) :
    ∀ kws : List String, notesKeywordLoop ⟨[]⟩ max_results [] kws = [] := by
  intro kws
  induction kws with
  | nil => rfl
  | cons kw rest ih =>
    show notesKeywordLoop ⟨[]⟩ max_results [] (kw :: rest) = []
    rw [notesKeywordLoop]
    have hsearch : SearchStudyNotes ⟨[]⟩ kw none max_results = [] := rfl
    rw [hsearch]
    simp only [List.append_nil, List.length_nil]
    by_cases h : max_results ≤ 0
    · simp [h]
    · simp [h, ih]

/-- An unloaded or empty embedding store makes both semantic passes empty. -/
theorem retrieveSemantic_empty (es : EmbeddingsStore)
    (h : es.EmbeddingsLoaded = false ∨ es.Embeddings = []) (qe : List ℝ) (m : ℕ) :
    RetrieveBibleVersesSemantic es qe m = [] ∧ RetrieveStudyNotesSemantic es qe m = [] := by
  rcases h with h | h
  · rw [RetrieveBibleVersesSemantic, RetrieveStudyNotesSemantic, h]
    exact ⟨rfl, rfl⟩
  · rcases hL : es.EmbeddingsLoaded with _ | _
    · rw [RetrieveBibleVersesSemantic, RetrieveStudyNotesSemantic, hL]
      exact ⟨rfl, rfl⟩
    · rw [RetrieveBibleVersesSemantic, RetrieveStudyNotesSemantic, hL]
      simp [FindSimilarContent, h]

/-- C8: `RetrieveContent` on an empty record store, empty note store and an
unloaded-or-empty embedding store returns empty verse and note lists with
both counts 0, echoing the query, for every query, bound pair and embedding
generator — and, being a total function, raises no error. -/
theorem retrieveContent_empty_stores :
    ∀ (es : EmbeddingsStore) (embed : String → List ℝ) (query : String)
      (max_bible_results max_study_results : ℕ),
      es.EmbeddingsLoaded = false ∨ es.Embeddings = [] →
      RetrieveContent ⟨[]⟩ ⟨[]⟩ es embed query max_bible_results max_study_results
        = { bible_verses := [], study_notes := [], query := query,
            total_bible_results := 0, total_study_results := 0 } := by
  intro es embed query maxb maxs h
  have hsem := retrieveSemantic_empty es h (embed query)
  rw [RetrieveContent, (hsem maxb).1, (hsem maxs).2]
  have hkwv : RetrieveBibleVersesKeyword ⟨[]⟩ query maxb = [] := by
    rw [RetrieveBibleVersesKeyword, transPriorityLoop_empty]
    simp
  have hkwn : RetrieveStudyNotesKeyword ⟨[]⟩ query maxs = [] := by
    rw [RetrieveStudyNotesKeyword, notesKeywordLoop_empty]
    simp
  rw [hkwv, hkwn]
  rfl

/-- Witness for C8: a fresh store, a trivial embedding generator and the
query "love" with the default bounds. -/
theorem retrieveContent_empty_stores_witness :
    RetrieveContent ⟨[]⟩ ⟨[]⟩ freshStore (fun _ => []) "love" 15 10
      = { bible_verses := [], study_notes := [], query := "love",
          total_bible_results := 0, total_study_results := 0 } :=
  retrieveContent_empty_stores freshStore (fun _ => []) "love" 15 10 (Or.inl rfl)

/-! ## C9: entries reconstruct their originating records -/

/-- Dropping leading whitespace leaves no leading whitespace. -/
theorem noLead_dropWhile (l : List Char) :
    noLeadSpace (l.dropWhile isPySpace) = true := by
  induction l with
  | nil => rfl
  | cons c rest ih =>
    by_cases h : isPySpace c = true
    · simpa [List.dropWhile_cons, h] using ih
    · simp [List.dropWhile_cons, h, noLeadSpace]

/-- A list with no leading whitespace is unchanged by `dropWhile`. -/
theorem dropWhile_of_noLead (l : List Char) (h : noLeadSpace l = true) :
    l.dropWhile isPySpace = l := by
  cases l with
  | nil => rfl
  | cons c rest =>
    simp only [noLeadSpace, Bool.not_eq_true'] at h
    simp [List.dropWhile_cons, h]

/-- Whitespace collapsing keeps a non-whitespace head. -/
theorem collapse_cons_nonspace (c : Char) (rest : List Char)
    (h : isPySpace c = false) : ∃ t, collapseWS (c :: rest) = c :: t := by
  cases rest with
  | nil => exact ⟨[], by simp [collapseWS, h]⟩
  | cons d rest2 => exact ⟨collapseWS (d :: rest2), by simp [collapseWS, h]⟩

/-- Whitespace collapsing preserves a non-whitespace (or empty) start. -/
theorem noLead_collapse (l : List Char) (h : noLeadSpace l = true) :
    noLeadSpace (collapseWS l) = true := by
  cases l with
  | nil => rfl
  | cons c rest =>
    simp only [noLeadSpace, Bool.not_eq_true'] at h
    rcases collapse_cons_nonspace c rest h with ⟨t, ht⟩
    simp [ht, noLeadSpace, h]

/-- The single-space property only concerns the remaining characters. -/
theorem allSpacesSingle_tail {c : Char} {rest : List Char}
    (h : allSpacesSingle (c :: rest) = true) : allSpacesSingle rest = true := by
  simp only [allSpacesSingle, Bool.and_eq_true] at h
  exact h.2

/-- After collapsing, every whitespace run is a single space. -/
theorem allSpacesSingle_collapse (l : List Char) :
    allSpacesSingle (collapseWS l) = true := by
  induction l with
  | nil => rfl
  | cons c rest ih =>
    cases rest with
    | nil =>
      by_cases h : isPySpace c = true
      · rw [show collapseWS [c] = [' '] from by simp [collapseWS, h]]
        decide
      · have h2 : isPySpace c = false := by simpa using h
        rw [show collapseWS [c] = [c] from by simp [collapseWS, h2]]
        simp [allSpacesSingle, h2]
    | cons d rest2 =>
      by_cases hc : isPySpace c = true
      · by_cases hd : isPySpace d = true
        · simpa [collapseWS, hc, hd] using ih
        · have hd2 : isPySpace d = false := by simpa using hd
          rcases collapse_cons_nonspace d rest2 hd2 with ⟨t, ht⟩
          have hx : collapseWS (c :: d :: rest2) = ' ' :: collapseWS (d :: rest2) := by
            simp [collapseWS, hc, hd2]
          rw [hx, ht]
          have iht : allSpacesSingle (d :: t) = true := ht ▸ ih
          show ((if isPySpace ' ' then (' ' == ' ') && noLeadSpace (d :: t) else true)
              && allSpacesSingle (d :: t)) = true
          rw [iht]
          simp [noLeadSpace, hd2]
      · have hc2 : isPySpace c = false := by simpa using hc
        have hx : collapseWS (c :: d :: rest2) = c :: collapseWS (d :: rest2) := by
          simp [collapseWS, hc2]
        rw [hx]
        show ((if isPySpace c then (c == ' ') && noLeadSpace (collapseWS (d :: rest2)) else true)
            && allSpacesSingle (collapseWS (d :: rest2))) = true
        rw [ih, hc2]
        simp

/-- A list whose whitespace is already canonical is unchanged by
collapsing. -/
theorem collapse_of_allSpacesSingle :
    ∀ l : List Char, allSpacesSingle l = true → collapseWS l = l := by
  intro l
  induction l with
  | nil => intro _; rfl
  | cons c rest ih =>
    intro h
    have hrest : allSpacesSingle rest = true := allSpacesSingle_tail h
    cases rest with
    | nil =>
      by_cases hc : isPySpace c = true
      · have : (c == ' ') = true := by
          simp only [allSpacesSingle, hc, if_true] at h
          simpa [noLeadSpace] using h
        have hc' : c = ' ' := by simpa using this
        simp [collapseWS, hc, hc']
      · have hc2 : isPySpace c = false := by simpa using hc
        simp [collapseWS, hc2]
    | cons d rest2 =>
      by_cases hc : isPySpace c = true
      · have hcond : (c == ' ') && noLeadSpace (d :: rest2) = true := by
          simp only [allSpacesSingle, hc, if_true, Bool.and_eq_true] at h
          simp [Bool.and_eq_true, h.1]
        rcases Bool.and_eq_true _ _ |>.mp hcond with ⟨hceq, hnl⟩
        have hc' : c = ' ' := by simpa using hceq
        have hd2 : isPySpace d = false := by
          simpa [noLeadSpace] using hnl
        have hx : collapseWS (c :: d :: rest2) = ' ' :: collapseWS (d :: rest2) := by
          simp [collapseWS, hc, hd2]
        rw [hx, ih hrest, hc']
      · have hc2 : isPySpace c = false := by simpa using hc
        have hx : collapseWS (c :: d :: rest2) = c :: collapseWS (d :: rest2) := by
          simp [collapseWS, hc2]
        rw [hx, ih hrest]

/-- If `rstripChars` fixes `c :: rest`, it fixes `rest`. -/
theorem rstrip_fixed_tail {c : Char} {rest : List Char}
    (h : rstripChars (c :: rest) = c :: rest) : rstripChars rest = rest := by
  rw [rstripChars] at h
  by_cases hcond : ((rstripChars rest).isEmpty && isPySpace c) = true
  · rw [if_pos hcond] at h
    cases h
  · rw [if_neg hcond] at h
    exact (List.cons_eq_cons.mp h).2

/-- Removing trailing whitespace is idempotent. -/
theorem rstrip_idem : ∀ l : List Char, rstripChars (rstripChars l) = rstripChars l := by
  intro l
  induction l with
  | nil => rfl
  | cons c rest ih =>
    rw [rstripChars]
    by_cases hcond : ((rstripChars rest).isEmpty && isPySpace c) = true
    · rw [if_pos hcond]
      rfl
    · rw [if_neg hcond, rstripChars, ih, if_neg hcond]

/-- Removing trailing whitespace preserves a non-whitespace start. -/
theorem noLead_rstrip (l : List Char) (h : noLeadSpace l = true) :
    noLeadSpace (rstripChars l) = true := by
  cases l with
  | nil => rfl
  | cons c rest =>
    rw [rstripChars]
    by_cases hcond : ((rstripChars rest).isEmpty && isPySpace c) = true
    · rw [if_pos hcond]; rfl
    · rw [if_neg hcond]
      simpa [noLeadSpace] using h

/-- Collapsing whitespace preserves the absence of trailing whitespace. -/
theorem rstrip_collapse_fixed :
    ∀ l : List Char, rstripChars l = l → rstripChars (collapseWS l) = collapseWS l := by
  intro l
  induction l with
  | nil => intro _; rfl
  | cons c rest ih =>
    intro h
    have hrest : rstripChars rest = rest := rstrip_fixed_tail h
    cases rest with
    | nil =>
      have hc2 : isPySpace c = false := by
        by_contra hcon
        have hc : isPySpace c = true := by simpa using hcon
        have hcalc : rstripChars [c] = [] := by
          rw [rstripChars]
          simp [rstripChars, hc]
        rw [hcalc] at h
        cases h
      rw [show collapseWS [c] = [c] from by simp [collapseWS, hc2]]
      exact h
    | cons d rest2 =>
      have ihr := ih hrest
      by_cases hc : isPySpace c = true
      · by_cases hd : isPySpace d = true
        · have hx : collapseWS (c :: d :: rest2) = collapseWS (d :: rest2) := by
            simp [collapseWS, hc, hd]
          rw [hx]
          exact ihr
        · have hd2 : isPySpace d = false := by simpa using hd
          rcases collapse_cons_nonspace d rest2 hd2 with ⟨t, ht⟩
          have hx : collapseWS (c :: d :: rest2) = ' ' :: collapseWS (d :: rest2) := by
            simp [collapseWS, hc, hd2]
          rw [hx, rstripChars, ihr]
          have hne : (collapseWS (d :: rest2)).isEmpty = false := by
            rw [ht]; rfl
          simp [hne]
      · have hc2 : isPySpace c = false := by simpa using hc
        have hx : collapseWS (c :: d :: rest2) = c :: collapseWS (d :: rest2) := by
          simp [collapseWS, hc2]
        rw [hx, rstripChars, ihr]
        simp [hc2]

/-- `__post_init__` text normalization is idempotent: a normalized text is
unchanged by a second strip-and-collapse. -/
theorem normalizeText_idem (s : String) :
    normalizeText (normalizeText s) = normalizeText s := by
  rw [normalizeText, normalizeText]
  have htl : (String.mk (collapseWS (stripChars s.toList))).toList
      = collapseWS (stripChars s.toList) := rfl
  rw [htl]
  have hy2 : rstripChars (stripChars s.toList) = stripChars s.toList := by
    rw [stripChars, lstripChars]
    exact rstrip_idem _
  have hnl : noLeadSpace (stripChars s.toList) = true := by
    rw [stripChars, lstripChars]
    exact noLead_rstrip _ (noLead_dropWhile _)
  have hznl : noLeadSpace (collapseWS (stripChars s.toList)) = true :=
    noLead_collapse _ hnl
  have hstrip : stripChars (collapseWS (stripChars s.toList))
      = collapseWS (stripChars s.toList) := by
    rw [stripChars, lstripChars, dropWhile_of_noLead _ hznl]
    exact rstrip_collapse_fixed _ hy2
  rw [hstrip, collapse_of_allSpacesSingle _ (allSpacesSingle_collapse _)]

/-- Looking up the key just inserted returns the inserted value. -/
theorem dictGet_dictInsert {β : Type} (k : String) (v : β) :
    ∀ m : List (String × β), dictGet (dictInsert m k v) k = some v := by
  intro m
  induction m with
  | nil => simp [dictInsert, dictGet]
  | cons p ps ih =>
    by_cases h : (p.1 == k) = true
    · simp [dictInsert, h, dictGet]
    · have h2 : (p.1 == k) = false := by simpa using h
      simp only [dictInsert, h2, Bool.false_eq_true, if_false]
      rw [dictGet, List.find?_cons_of_neg _ (by simp [h2])]
      exact ih

/-- C9: an entry written by a batch-add carries, in its metadata plus its
content field, everything needed to rebuild the original record exactly,
the way the semantic pass does: for verses the stored text re-normalizes to
itself (normalization is idempotent), and for notes all seven fields are
stored verbatim; moreover the add really stores that entry under its
deterministic id. -/
theorem embeddings_reconstruct_records :
    (∀ (tr bk : String) (ch vs : Int) (t oid : String) (e : List ℝ),
      reconstructVerse (mkVerseItem (mkBibleVerse tr bk ch vs t oid) e)
        = some (mkBibleVerse tr bk ch vs t oid))
    ∧ (∀ (n : StudyNote) (e : List ℝ),
      reconstructNote (mkNoteItem n e) = some n)
    ∧ (∀ (s : EmbeddingsStore) (v : BibleVerse) (e : List ℝ),
      ∃ s2, AddBibleVerseEmbeddings s [v] [e] = .ok s2
        ∧ dictGet s2.Embeddings (verseItemId v) = some (mkVerseItem v e))
    ∧ (∀ (s : EmbeddingsStore) (n : StudyNote) (e : List ℝ),
      ∃ s2, AddStudyNoteEmbeddings s [n] [e] = .ok s2
        ∧ dictGet s2.Embeddings (noteItemId n) = some (mkNoteItem n e)) := by
  refine ⟨fun tr bk ch vs t oid e => ?_, fun n e => rfl,
    fun s v e => ⟨_, rfl, ?_⟩, fun s n e => ⟨_, rfl, ?_⟩⟩
  · have hv : reconstructVerse (mkVerseItem (mkBibleVerse tr bk ch vs t oid) e)
        = some (mkBibleVerse tr bk ch vs (normalizeText t) oid) := rfl
    rw [hv, mkBibleVerse, mkBibleVerse]
    simp [normalizeText_idem]
  · exact dictGet_dictInsert _ _ s.Embeddings
  · exact dictGet_dictInsert _ _ s.Embeddings

/-! ## C10: batch-adds never set the loaded flag -/

/-- One batch-add call, successful or failing validation, leaves the
`EmbeddingsLoaded` flag untouched. -/
theorem applyAddOp_loaded (s : EmbeddingsStore) (op : AddOp) :
    (applyAddOp s op).EmbeddingsLoaded = s.EmbeddingsLoaded := by
  cases op with
  | verses vs es =>
    by_cases h : vs.length = es.length <;>
      simp [applyAddOp, AddBibleVerseEmbeddings, h]
  | notes ns es =>
    by_cases h : ns.length = es.length <;>
      simp [applyAddOp, AddStudyNoteEmbeddings, h]

/-- A sequence of batch-add calls leaves the `EmbeddingsLoaded` flag
untouched. -/
theorem applyAddOps_loaded :
    ∀ (ops : List AddOp) (s : EmbeddingsStore),
      (applyAddOps s ops).EmbeddingsLoaded = s.EmbeddingsLoaded := by
  intro ops
  induction ops with
  | nil => intro s; rfl
  | cons op rest ih =>
    intro s
    show (applyAddOps (applyAddOp s op) rest).EmbeddingsLoaded = s.EmbeddingsLoaded
    rw [ih, applyAddOp_loaded]

/-- Every stored entry is returned by an unfiltered `FindSimilarContent`
whose bound is the store size. -/
theorem findSimilar_mem (s : EmbeddingsStore) (q : List ℝ) (k : String)
    (it : EmbeddingItem) (hmem : (k, it) ∈ s.Embeddings) :
    ∃ sc, (it, sc) ∈ FindSimilarContent s q none s.Embeddings.length := by
  rcases hE : s.Embeddings with _ | ⟨p, rest⟩
  · rw [hE] at hmem; cases hmem
  · have hfilter : ((p :: rest).map Prod.snd).filter (keepItem none)
        = (p :: rest).map Prod.snd := List.filter_eq_self.mpr (fun a _ => rfl)
    have hbody : FindSimilarContent s q none (p :: rest).length
        = (((((p :: rest).map Prod.snd).filter (keepItem none)).map
            (fun item => (item, CosineSimilarity q item.embedding))).mergeSort
              (fun x y => decide (y.2 ≤ x.2))).take (p :: rest).length := by
      simp only [FindSimilarContent, hE]
    rw [hbody, hfilter]
    set sims := ((p :: rest).map Prod.snd).map
      (fun item => (item, CosineSimilarity q item.embedding)) with hsims
    have hperm := List.mergeSort_perm sims (fun x y => decide (y.2 ≤ x.2))
    have hfull : (sims.mergeSort (fun x y => decide (y.2 ≤ x.2))).take (p :: rest).length
        = sims.mergeSort (fun x y => decide (y.2 ≤ x.2)) := by
      refine List.take_of_length_le ?_
      rw [hperm.length_eq, hsims, List.length_map, List.length_map]
    rw [hfull]
    refine ⟨CosineSimilarity q it.embedding, hperm.mem_iff.mpr ?_⟩
    rw [hsims]
    exact List.mem_map.mpr ⟨it, List.mem_map.mpr ⟨(k, it), hE ▸ hmem, rfl⟩, rfl⟩

/-- C10: starting from a fresh store, no sequence of batch-add calls sets
`EmbeddingsLoaded`, so both semantic passes of the retrieval engine return
empty lists for every query embedding and bound — even though every entry
the adds stored is present and returned by `FindSimilarContent` when
queried directly. -/
theorem addOnly_semantic_empty :
    ∀ (ops : List AddOp) (qe : List ℝ) (m : ℕ),
      (applyAddOps freshStore ops).EmbeddingsLoaded = false
      ∧ RetrieveBibleVersesSemantic (applyAddOps freshStore ops) qe m = []
      ∧ RetrieveStudyNotesSemantic (applyAddOps freshStore ops) qe m = []
      ∧ (∀ (k : String) (it : EmbeddingItem),
          (k, it) ∈ (applyAddOps freshStore ops).Embeddings →
          ∃ sc, (it, sc) ∈ FindSimilarContent (applyAddOps freshStore ops) qe none
            (applyAddOps freshStore ops).Embeddings.length) := by
  intro ops qe m
  have hl : (applyAddOps freshStore ops).EmbeddingsLoaded = false :=
    applyAddOps_loaded ops freshStore
  refine ⟨hl, ?_, ?_, fun k it hmem => findSimilar_mem _ qe k it hmem⟩
  · rw [RetrieveBibleVersesSemantic, hl]
  · rw [RetrieveStudyNotesSemantic, hl]

/-- Witness for C10: one successful verse batch-add from a fresh store; the
flag stays false and the semantic pass is empty, yet the stored entry is
returned by a direct similarity query. -/
theorem addOnly_semantic_empty_witness :
    (applyAddOps freshStore [.verses [sampleVerse] [[]]]).EmbeddingsLoaded = false
    ∧ RetrieveBibleVersesSemantic
        (applyAddOps freshStore [.verses [sampleVerse] [[]]]) [] 5 = []
    ∧ RetrieveStudyNotesSemantic
        (applyAddOps freshStore [.verses [sampleVerse] [[]]]) [] 5 = []
    ∧ ∃ sc, (sampleItem, sc) ∈ FindSimilarContent
        (applyAddOps freshStore [.verses [sampleVerse] [[]]]) [] none
        (applyAddOps freshStore [.verses [sampleVerse] [[]]]).Embeddings.length :=
  have h := addOnly_semantic_empty [.verses [sampleVerse] [[]]] [] 5
  ⟨h.1, h.2.1, h.2.2.1,
   h.2.2.2 (verseItemId sampleVerse) sampleItem (List.mem_singleton.mpr rfl)⟩
